import Mathlib

/-
Verification development for the multidisc-manager repository.

The definitions below are a shallow embedding of the Python sources:
  * `extract_game_info`   from src/core/file_utils.py (also duplicated in
    src/rommate.py as `RomMateGUI.extract_game_info`): the ordered list of
    eight regular-expression families applied with `re.match` and
    `re.IGNORECASE` to the extension-stripped filename.
  * `find_multidisc_games` from src/core/file_utils.py / src/rommate.py:
    grouping by parsed title under the truthiness guard
    `if game_name and disc_num`, the multi-disc filter, the
    mixed-extension rejection and the per-group sort by disc number.
  * `create_m3u_file`     from src/core/file_utils.py / src/rommate.py:
    the existence check followed by one `f.write(f"{disc_file}\n")` per disc.
  * the conversion loop of `RomMateGUI.convert_and_create_m3u`
    (src/rommate.py) and the completion reporting of
    `RomMateGUI.convert_to_chd` (src/rommate.py).

Characters are modelled at the ASCII level: the `\s`, `\d`, `[A-Z]`
character classes and the case-insensitive matching of the Python `re`
module are modelled for ASCII inputs (Python would additionally accept
some non-ASCII whitespace, digits and cased letters).
-/

namespace MDM

/-! ### Character classes used by the patterns -/

/-- ASCII whitespace, the characters matched by the regex class `\s`. -/
def isWs (c : Char) : Bool :=
  c == ' ' || c == '\t' || c == '\n' || c == '\r' || c == '\x0b' || c == '\x0c'

/-- The separator class `[\s\-_]` that the patterns allow between the
title and the disc marker. -/
def isSep (c : Char) : Bool :=
  isWs c || c == '-' || c == '_'

/-! ### Parser primitives for the marker part of each regex

Each marker parser consumes a prefix of the remaining characters and
returns the decoded disc number; the remainder of the input is ignored
because `re.match` does not require the pattern to span the whole name. -/

/-- Match one literal character case-insensitively (`re.IGNORECASE`). -/
def lit1 (x : Char) : List Char → Option (List Char)
  | [] => none
  | c :: r => if c.toLower == x then some r else none

/-- Match a sequence of literal characters case-insensitively. -/
def litS : List Char → List Char → Option (List Char)
  | [], cs => some cs
  | x :: xs, cs => (lit1 x cs).bind (litS xs)

/-- Greedily drop the whitespace matched by `\s*`. -/
def wsDrop (cs : List Char) : List Char := cs.dropWhile isWs

/-- Decimal value of a digit run, as computed by Python's `int()`. -/
def natOfDigits (ds : List Char) : Nat :=
  ds.foldl (fun a c => a * 10 + (c.toNat - '0'.toNat)) 0

/-- Match `(\d+)` greedily: at least one digit, maximal run. -/
def digits1 (cs : List Char) : Option (Nat × List Char) :=
  let ds := cs.takeWhile Char.isDigit
  if ds.isEmpty then none
  else some (natOfDigits ds, cs.dropWhile Char.isDigit)

/-- Match `([A-Z])` under `re.IGNORECASE`, decoding the letter to its
1-based alphabet position: `ord(upper(c)) - ord('A') + 1`. -/
def letter1 : List Char → Option (Nat × List Char)
  | [] => none
  | c :: r =>
    if c.isAlpha then some (c.toUpper.toNat - 'A'.toNat + 1, r) else none

/-- The `[ck]` character class after `Dis` (so `Disc` or `Disk`). -/
def ckOne (cs : List Char) : Option (List Char) :=
  match lit1 'c' cs with
  | some r => some r
  | none => lit1 'k' cs

/-- The keyword `Dis[ck]`. -/
def kwDis (cs : List Char) : Option (List Char) :=
  (litS ['d', 'i', 's'] cs).bind ckOne

/-- The keyword `CD`. -/
def kwCD (cs : List Char) : Option (List Char) :=
  litS ['c', 'd'] cs

/-- The alternation `(?:Side|Dis[ck])`, `Side` tried first as in the
source patterns. -/
def kwSideOrDis (cs : List Char) : Option (List Char) :=
  match litS ['s', 'i', 'd', 'e'] cs with
  | some r => some r
  | none => kwDis cs

/-- Numeric disc marker: keyword, `\s*`, `(\d+)`, optionally wrapped in
delimiters, e.g. `\(Dis[ck]\s*(\d+)\)` or the bare `CD\s*(\d+)`. -/
def mkNumD (delim : Option (Char × Char)) (kw : List Char → Option (List Char))
    (cs : List Char) : Option Nat :=
  match delim with
  | some (o, c) =>
    match lit1 o cs with
    | none => none
    | some r1 =>
      match kw r1 with
      | none => none
      | some r2 =>
        match digits1 (wsDrop r2) with
        | none => none
        | some (n, r3) =>
          match lit1 c r3 with
          | none => none
          | some _ => some n
  | none =>
    match kw cs with
    | none => none
    | some r1 =>
      match digits1 (wsDrop r1) with
      | none => none
      | some (n, _) => some n

/-- Letter disc marker: a delimiter, a keyword alternation, `\s*`, a
single letter `([A-Z])`, the closing delimiter (e.g. the code's
`\((?:Side|Dis[ck])\s*([A-Z])\)`). -/
def mkLetD (kw : List Char → Option (List Char)) (o c : Char)
    (cs : List Char) : Option Nat :=
  match lit1 o cs with
  | none => none
  | some r1 =>
    match kw r1 with
    | none => none
    | some r2 =>
      match letter1 (wsDrop r2) with
      | none => none
      | some (n, r3) =>
        match lit1 c r3 with
        | none => none
        | some _ => some n

/-- Family 1: `(.*?)[\s\-_]*\(Dis[ck]\s*(\d+)\)` marker part. -/
def mk1 : List Char → Option Nat := mkNumD (some ('(', ')')) kwDis
/-- Family 2: `(.*?)[\s\-_]*\[Dis[ck]\s*(\d+)\]` marker part. -/
def mk2 : List Char → Option Nat := mkNumD (some ('[', ']')) kwDis
/-- Family 3: `(.*?)[\s\-_]*Dis[ck]\s*(\d+)` marker part. -/
def mk3 : List Char → Option Nat := mkNumD none kwDis
/-- Family 4: `(.*?)[\s\-_]*\(CD\s*(\d+)\)` marker part. -/
def mk4 : List Char → Option Nat := mkNumD (some ('(', ')')) kwCD
/-- Family 5: `(.*?)[\s\-_]*\[CD\s*(\d+)\]` marker part. -/
def mk5 : List Char → Option Nat := mkNumD (some ('[', ']')) kwCD
/-- Family 6: `(.*?)[\s\-_]*CD\s*(\d+)` marker part. -/
def mk6 : List Char → Option Nat := mkNumD none kwCD
/-- Family 7: `(.*?)[\s\-_]*\((?:Side|Dis[ck])\s*([A-Z])\)` marker part.
Note the code's alternation `(?:Side|Dis[ck])` accepts `Side`, `Disk`
and also `Disc` before the letter. -/
def mk7 : List Char → Option Nat := mkLetD kwSideOrDis '(' ')'
/-- Family 8: `(.*?)[\s\-_]*\[(?:Side|Dis[ck])\s*([A-Z])\]` marker part. -/
def mk8 : List Char → Option Nat := mkLetD kwSideOrDis '[' ']'

/-- The keyword alternation of the specification's letter families
(section 4.1, families 7 and 8): `Side` or `Disk` with a single letter
— the spec does not list `Disc L`. -/
def kwSideOrDisk (cs : List Char) : Option (List Char) :=
  match litS ['s', 'i', 'd', 'e'] cs with
  | some r => some r
  | none => litS ['d', 'i', 's', 'k'] cs

/-- Spec family 7: `(Side L)` / `(Disk L)` parenthesized. -/
def mk7spec : List Char → Option Nat := mkLetD kwSideOrDisk '(' ')'
/-- Spec family 8: `[Side L]` / `[Disk L]` bracketed. -/
def mk8spec : List Char → Option Nat := mkLetD kwSideOrDisk '[' ']'

/-! ### `os.path.splitext`

`name_without_ext = os.path.splitext(filename)[0]`: the extension starts
at the last dot, provided some earlier character of the name is not a
dot (so `.cshrc` has no extension). -/

/-- Index of the last `.` in the name, if any. -/
def lastDotIdx (cs : List Char) : Option Nat :=
  (cs.reverse.findIdx? (fun c => c == '.')).map (fun ri => cs.length - 1 - ri)

/-- Root part of `os.path.splitext` for a plain filename. -/
def splitextRootL (cs : List Char) : List Char :=
  match lastDotIdx cs with
  | none => cs
  | some L =>
    if (cs.takeWhile (fun c => c == '.')).length < L then cs.take L else cs

/-- Extension part of `os.path.splitext` for a plain filename
(including the dot). -/
def splitextExtL (cs : List Char) : List Char :=
  cs.drop (splitextRootL cs).length

/-! ### `re.match` semantics for the eight patterns

Every pattern has the shape `(.*?)[\s\-_]*MARKER...`.  The lazy group
`(.*?)` tries prefixes of increasing length (and cannot contain a
newline, since `.` does not match `\n`); for a fixed prefix the greedy
separator run `[\s\-_]*` backtracks from its maximal length.  The
backtracking is modelled literally: `tryFrom` tries the marker after
`k` separators for `k` from the maximal run length down to `0`. -/

/-- Length of the maximal `[\s\-_]*` run at the head of the input. -/
def sepRun : List Char → Nat
  | [] => 0
  | c :: rest => if isSep c then sepRun rest + 1 else 0

/-- Try the marker after `k` leading characters, for `k = K, K-1, ..., 0`
(the greedy separator run backtracks from longest to shortest). -/
def tryFrom (mk : List Char → Option Nat) (cs : List Char) : Nat → Option Nat
  | 0 => mk cs
  | k + 1 =>
    match mk (cs.drop (k + 1)) with
    | some n => some n
    | none => tryFrom mk cs k

/-- Match `[\s\-_]*MARKER` at the head of the input. -/
def trySepsG (mk : List Char → Option Nat) (cs : List Char) : Option Nat :=
  tryFrom mk cs (sepRun cs)

/-- Full `re.match` of one pattern: returns the length of the `(.*?)`
capture together with the decoded disc number.  The prefix grows one
character at a time (lazy `.*?`) and cannot absorb a newline. -/
def reMatchPos (mk : List Char → Option Nat) : List Char → Option (Nat × Nat)
  | [] => (trySepsG mk []).map (fun n => (0, n))
  | c :: rest =>
    match trySepsG mk (c :: rest) with
    | some n => some (0, n)
    | none =>
      if c = '\n' then none
      else (reMatchPos mk rest).map (fun p => (p.1 + 1, p.2))

/-- Python's `str.strip()`: whitespace removed from both ends. -/
def pyStrip (cs : List Char) : List Char :=
  (((cs.dropWhile isWs).reverse).dropWhile isWs).reverse

/-- One pattern applied as in the source loop: on a match, the title is
`match.group(1).strip()` and the disc number the decoded group 2. -/
def famMatch (mk : List Char → Option Nat) (root : List Char) :
    Option (List Char × Nat) :=
  (reMatchPos mk root).map (fun p => (pyStrip (root.take p.1), p.2))

/-- First-match-wins chaining of the ordered pattern list. -/
def orE {α : Type} (a b : Option α) : Option α :=
  match a with
  | some x => some x
  | none => b

/-- `extract_game_info` on the character list of the filename. -/
def extractL (fn : List Char) : Option (List Char × Nat) :=
  let root := splitextRootL fn
  orE (famMatch mk1 root) (orE (famMatch mk2 root) (orE (famMatch mk3 root)
    (orE (famMatch mk4 root) (orE (famMatch mk5 root) (orE (famMatch mk6 root)
      (orE (famMatch mk7 root) (famMatch mk8 root)))))))

/-- `extract_game_info(filename)` from src/core/file_utils.py: the game
name and disc number, or `none` in place of `(None, None)`. -/
def extract_game_info (s : String) : Option (String × Nat) :=
  (extractL s.data).map (fun p => (String.mk p.1, p.2))

end MDM

namespace MDM

/-! ### The spec-side resolver

The following definitions follow the wording of the specification
(section 4.1), to be compared with `extract_game_info` above: an ordered
list of marker families, first match wins, matching case-insensitive on
the extension-stripped name; the `title` is everything before the disc
marker, trimmed of trailing separators (`-`, `_`, whitespace) and of
whitespace; letter markers decode to the letter's 1-based alphabet
position.  The marker syntax of the numeric families 1-6 is shared
with the code embedding (`mk1` ... `mk6`), since spec and code describe
those markers identically; the letter families differ: the spec lists
only `Side L` / `Disk L` (`mk7spec`, `mk8spec`), while the code's
regex alternation `(?:Side|Dis[ck])` additionally accepts `Disc L`
(`mk7`, `mk8`).  `spec_resolve` below follows the spec's words;
`spec_resolve_widened` replaces its letter families by the code's
widened ones and is the reading the code provably implements. -/

/-- Earliest position of a marker occurrence in the name, with its
decoded disc number. -/
def findMarkerAux (mk : List Char → Option Nat) : List Char → Option (Nat × Nat)
  | [] => none
  | c :: rest =>
    match mk (c :: rest) with
    | some n => some (0, n)
    | none => (findMarkerAux mk rest).map (fun q => (q.1 + 1, q.2))

/-- Remove the trailing run of separators (`-`, `_`, whitespace). -/
def dropTrailingSeps (cs : List Char) : List Char :=
  (cs.reverse.dropWhile isSep).reverse

/-- Spec reading of one family: if the family's marker occurs, the title
is the text preceding the (earliest) marker, trimmed of trailing
separators and of whitespace. -/
def specFam (mk : List Char → Option Nat) (root : List Char) :
    Option (List Char × Nat) :=
  (findMarkerAux mk root).map
    (fun q => (pyStrip (dropTrailingSeps (root.take q.1)), q.2))

/-- The resolver as the specification words it: the eight families in
priority order, first match wins, `absent` when no family matches; the
letter families accept only `Side L` / `Disk L`. -/
def spec_resolve_L (fn : List Char) : Option (List Char × Nat) :=
  let root := splitextRootL fn
  orE (specFam mk1 root) (orE (specFam mk2 root) (orE (specFam mk3 root)
    (orE (specFam mk4 root) (orE (specFam mk5 root) (orE (specFam mk6 root)
      (orE (specFam mk7spec root) (specFam mk8spec root)))))))

/-- String-level spec resolver. -/
def spec_resolve (s : String) : Option (String × Nat) :=
  (spec_resolve_L s.data).map (fun p => (String.mk p.1, p.2))

/-- The spec reading with the letter families widened to the code's
alternation (`Side`, `Disk` and also `Disc` before the letter) — the
only change against `spec_resolve_L`. -/
def spec_resolve_widened_L (fn : List Char) : Option (List Char × Nat) :=
  let root := splitextRootL fn
  orE (specFam mk1 root) (orE (specFam mk2 root) (orE (specFam mk3 root)
    (orE (specFam mk4 root) (orE (specFam mk5 root) (orE (specFam mk6 root)
      (orE (specFam mk7 root) (specFam mk8 root)))))))

/-- String-level widened spec resolver. -/
def spec_resolve_widened (s : String) : Option (String × Nat) :=
  (spec_resolve_widened_L s.data).map (fun p => (String.mk p.1, p.2))

/-! ### Grouping engine: `find_multidisc_games`

The embedding takes the enumerated file list (the `all_files` list the
source builds from the glob patterns) as input; each element is a file
name.  `entryOf` performs the per-file classification under the
truthiness guard `if game_name and disc_num:` (empty title and disc
number `0` are falsy). -/

/-- Lookup in an association list (Python dict read). -/
def alookup {α : Type} : List (String × α) → String → Option α
  | [], _ => none
  | (k, v) :: rest, key => if k = key then some v else alookup rest key

/-- Per-file classification: the parsed `(title, (disc, file))` entry,
or `none` when the resolver fails or the truthiness guard rejects the
parse. -/
def entryOf (f : String) : Option (String × (Nat × String)) :=
  match extract_game_info f with
  | some (name, d) => if name ≠ "" ∧ d ≠ 0 then some (name, (d, f)) else none
  | none => none

/-- `games[game_name].append((disc_num, filename))` on an ordered dict:
an existing key keeps its position and appends, a new key is appended at
the end. -/
def addEntry {α : Type} : List (String × List α) → String → α → List (String × List α)
  | [], k, v => [(k, [v])]
  | (k', vs) :: rest, k, v =>
    if k' = k then (k', vs ++ [v]) :: rest else (k', vs) :: addEntry rest k v

/-- Accumulate the classified entries into the ordered `games` dict. -/
def groupByKey {α : Type} (pairs : List (String × α)) : List (String × List α) :=
  pairs.foldl (fun acc p => addEntry acc p.1 p.2) []

/-- The per-group sort `files.sort(key=lambda x: x[0])`: stable,
ascending by disc number (Python's sort and insertion sort are both
stable, so they agree exactly). -/
def sortDiscs (ms : List (Nat × String)) : List (Nat × String) :=
  List.insertionSort (fun a b => a.1 ≤ b.1) ms

/-- Lowercased extension of a file name:
`os.path.splitext(f)[1].lower()`. -/
def extLower (f : String) : String :=
  String.mk ((splitextExtL f.data).map Char.toLower)

/-- The distinct lowercased extensions of a group's members
(`set(os.path.splitext(f[1])[1].lower() for f in files)`). -/
def extsOf (ms : List (Nat × String)) : List String :=
  (ms.map (fun p => extLower p.2)).dedup

/-- `find_multidisc_games` from src/core/file_utils.py, applied to the
enumerated file list: classify each file, group by title, keep titles
with more than one entry and a single distinct extension, sort each kept
group by disc number. -/
def find_multidisc_games (files : List String) :
    List (String × List (Nat × String)) :=
  (groupByKey (files.filterMap entryOf)).filterMap (fun g =>
    if 1 < g.2.length then
      if (extsOf g.2).length = 1 then some (g.1, sortDiscs g.2) else none
    else none)

/-- The classified members a file list contributes to one title, in
enumeration order (used to state properties of the grouping). -/
def membersOf (files : List String) (t : String) : List (Nat × String) :=
  (files.filterMap entryOf).filterMap
    (fun p => if p.1 = t then some p.2 else none)

/-! ### Playlist writer: `create_m3u_file`

The filesystem is modelled as an association list from paths to file
contents (lists of characters); the head entry for a path is its
current content. -/

/-- Modelled filesystem: path to content. -/
abbrev FS := List (String × List Char)

/-- `os.path.join(folder, f"{game_name}.m3u")`. -/
def m3uPath (folder game : String) : String :=
  folder ++ "/" ++ game ++ ".m3u"

/-- Content written by the loop `for disc_num, disc_file in disc_files:
f.write(f"{disc_file}\n")`. -/
def m3uContentL (ms : List (Nat × String)) : List Char :=
  (ms.map (fun p => p.2.data ++ ['\n'])).flatten

/-- `create_m3u_file(game_name, disc_files, folder)` from
src/core/file_utils.py: returns `False` and leaves the filesystem
unchanged when the target path exists, otherwise writes the playlist
and returns `True`. -/
def create_m3u_file (game : String) (discs : List (Nat × String))
    (folder : String) (fs : FS) : Bool × FS :=
  let path := m3uPath folder game
  if (alookup fs path).isSome then (false, fs)
  else (true, (path, m3uContentL discs) :: fs)

/-- Models the write loop of `create_m3u_file` under an injected I/O
failure: `open(path, 'w')` has already created (truncated) the file at
the final path, the loop performs `failAfter` successful `f.write`
calls and then raises, and closing the file on unwind flushes the lines
already written.  The first component is `none` when the exception
propagates, otherwise the function's return value. -/
def create_m3u_file_partial (game : String) (discs : List (Nat × String))
    (folder : String) (fs : FS) (failAfter : Nat) : Option Bool × FS :=
  let path := m3uPath folder game
  if (alookup fs path).isSome then (some false, fs)
  else if failAfter < discs.length then
    (none, (path, m3uContentL (discs.take failAfter)) :: fs)
  else (some true, (path, m3uContentL discs) :: fs)

/-- Split a character list at every newline (the segments between
`'\n'` characters; a trailing newline yields a final empty segment). -/
def splitNLL : List Char → List (List Char)
  | [] => [[]]
  | c :: r =>
    if c = '\n' then [] :: splitNLL r
    else
      match splitNLL r with
      | s :: ss => (c :: s) :: ss
      | [] => [[c]]

/-- The lines of a text whose every line is newline-terminated. -/
def linesOf (cs : List Char) : List (List Char) :=
  (splitNLL cs).dropLast

/-! ### Conversion orchestration: the loop of
`RomMateGUI.convert_and_create_m3u` (src/rommate.py)

For each discovered source file: if the destination `.chd` exists the
task is skipped (`continue`); otherwise `chdman createcd` runs as a
child process; exit code 0 counts as converted and optionally deletes
the originals; a non-zero exit or a raised exception only logs and the
loop proceeds.  The environment abstracts what the external converter
does for a given source: succeed (creating the destination), exit
non-zero, or fail to launch. -/

/-- Outcome of invoking the external converter on one source file. -/
inductive ConvOutcome : Type
  | success : ConvOutcome
  | exitNonzero : ConvOutcome
  | launchError : ConvOutcome
deriving DecidableEq

/-- Status a conversion task ends in. -/
inductive TaskStatus : Type
  | skipped : TaskStatus
  | succeeded : TaskStatus
  | failed : TaskStatus
deriving DecidableEq

/-- Abstraction of the external converter: per-source outcome and, on
success, the content written to the destination file. -/
structure ConvEnv : Type where
  outcome : String → ConvOutcome
  output : String → List Char

/-- `source_file.with_suffix(".chd")`. -/
def chdPath (src : String) : String :=
  String.mk (splitextRootL src.data) ++ ".chd"

/-- `source_file.with_suffix(".bin")`, the cue sheet's sidecar. -/
def binPath (src : String) : String :=
  String.mk (splitextRootL src.data) ++ ".bin"

/-- Remove a path from the filesystem (`os.remove`). -/
def fsErase (fs : FS) (p : String) : FS :=
  fs.filter (fun e => e.1 ≠ p)

/-- Post-conversion deletion of the originals: remove the source, and
for a `.cue` source also its `.bin` sidecar when present. -/
def deleteOriginals (fs : FS) (src : String) : FS :=
  let fs1 := fsErase fs src
  if extLower src = ".cue" then
    if (alookup fs1 (binPath src)).isSome then fsErase fs1 (binPath src) else fs1
  else fs1

/-- One iteration of the conversion loop: the updated filesystem, the
updated `converted` counter, and the task's resulting status. -/
def convStep (env : ConvEnv) (delete : Bool) (fs : FS) (converted : Nat)
    (src : String) : FS × Nat × TaskStatus :=
  let dest := chdPath src
  if (alookup fs dest).isSome then (fs, converted, TaskStatus.skipped)
  else
    match env.outcome src with
    | ConvOutcome.success =>
      let fs1 := (dest, env.output src) :: fs
      let fs2 := if delete then deleteOriginals fs1 src else fs1
      (fs2, converted + 1, TaskStatus.succeeded)
    | ConvOutcome.exitNonzero => (fs, converted, TaskStatus.failed)
    | ConvOutcome.launchError => (fs, converted, TaskStatus.failed)

/-- Result of running the conversion loop over the whole batch. -/
structure LoopResult : Type where
  fs : FS
  converted : Nat
  statuses : List TaskStatus
deriving DecidableEq

/-- The conversion loop of `convert_and_create_m3u` over the discovered
source files, sequentially, one task at a time. -/
def convertLoop (env : ConvEnv) (delete : Bool) :
    FS → Nat → List String → LoopResult
  | fs, converted, [] => { fs := fs, converted := converted, statuses := [] }
  | fs, converted, src :: rest =>
    let s := convStep env delete fs converted src
    let r := convertLoop env delete s.1 s.2.1 rest
    { fs := r.fs, converted := r.converted, statuses := s.2.2 :: r.statuses }

/-- Whether the `RomMateGUI` class defines a `find_chdman` method.  It
does not: its only methods are the GUI/worker methods, and the
standalone path instead calls `self.chd_converter.find_chdman()`
(src/rommate.py line 711). -/
def romMateGUI_defines_find_chdman : Bool := false

/-- Run-level completion report of `convert_and_create_m3u`
(src/rommate.py lines 1006-1222): the whole body runs inside
`try ... except Exception` (line 1218).  Its first statement,
`chdman_path = self.find_chdman()` (line 1013), raises
`AttributeError` because `RomMateGUI` defines no `find_chdman`, so
every run lands in the handler and reports
`show_completion(success=False)` with the default counts `(0, 0, 0)`;
the conversion loop (lines 1069-1166, embedded as `convertLoop`) and
the completion report of line 1216
(`show_completion(success=True, converted=converted, skipped=0,
failed=0)`) are dead code, kept here in the unreachable branch. -/
def convert_and_create_m3u_run (env : ConvEnv) (delete : Bool) (fs : FS)
    (srcs : List String) : Bool × Nat × Nat × Nat :=
  if romMateGUI_defines_find_chdman then
    (true, (convertLoop env delete fs 0 srcs).converted, 0, 0)
  else (false, 0, 0, 0)

/-- The completion reporting of `convert_to_chd` (src/rommate.py):
`success=False` when no file was convertible at all, otherwise
`success = failed == 0`. -/
def convert_to_chd_success (converted skipped failed : Nat) : Bool :=
  if converted = 0 ∧ skipped = 0 ∧ failed = 0 then false else failed == 0

end MDM

namespace MDM

/-- The values a pair list contributes to one key, in order. -/
def valuesOf {α : Type} (pairs : List (String × α)) (key : String) : List α :=
  pairs.filterMap (fun p => if p.1 = key then some p.2 else none)

instance instIsTotalDiscLe : IsTotal (Nat × String) (fun a b => a.1 ≤ b.1) :=
  ⟨fun a b => Nat.le_total a.1 b.1⟩

instance instIsTransDiscLe : IsTrans (Nat × String) (fun a b => a.1 ≤ b.1) :=
  ⟨fun _ _ _ h1 h2 => Nat.le_trans h1 h2⟩

/-- Concrete converter environment for evaluations: conversion of
`a.cue` exits non-zero, every other source converts successfully. -/
def env0 : ConvEnv :=
  { outcome := fun s =>
      if s == "a.cue" then ConvOutcome.exitNonzero else ConvOutcome.success,
    output := fun _ => "CHD".data }

/-- Concrete starting filesystem for evaluations: the two cue sources. -/
def fs0 : FS := [("a.cue", "CUEA".data), ("b.cue", "CUEB".data)]

/-! ### Lemmas: backtracking of the separator run -/

theorem tryFrom_eq_none_iff (mk : List Char → Option Nat) (cs : List Char) :
    ∀ K, tryFrom mk cs K = none ↔ ∀ k, k ≤ K → mk (cs.drop k) = none := by
  intro K
  induction K with
  | zero =>
    constructor
    · intro h k hk
      interval_cases k
      simpa [tryFrom] using h
    · intro h
      simpa [tryFrom] using h 0 (Nat.le_refl 0)
  | succ k ih =>
    cases h : mk (cs.drop (k + 1)) with
    | some n =>
      simp only [tryFrom, h]
      constructor
      · intro hc; exact absurd hc (by simp)
      · intro hall; exact absurd h (by simp [hall (k + 1) (Nat.le_refl _)])
    | none =>
      simp only [tryFrom, h]
      rw [ih]
      constructor
      · intro hall j hj
        rcases Nat.lt_or_ge j (k + 1) with hlt | hge
        · exact hall j (Nat.lt_succ_iff.mp hlt)
        · have : j = k + 1 := Nat.le_antisymm hj hge
          simpa [this] using h
      · intro hall j hj
        exact hall j (Nat.le_trans hj (Nat.le_succ k))

theorem tryFrom_some (mk : List Char → Option Nat) (cs : List Char) :
    ∀ K n, tryFrom mk cs K = some n → ∃ k, k ≤ K ∧ mk (cs.drop k) = some n := by
  intro K
  induction K with
  | zero =>
    intro n h
    exact ⟨0, Nat.le_refl 0, by simpa [tryFrom] using h⟩
  | succ k ih =>
    intro n h
    simp only [tryFrom] at h
    cases hm : mk (cs.drop (k + 1)) with
    | some m =>
      rw [hm] at h
      cases h
      exact ⟨k + 1, Nat.le_refl _, hm⟩
    | none =>
      rw [hm] at h
      obtain ⟨j, hj, hmk⟩ := ih n h
      exact ⟨j, Nat.le_trans hj (Nat.le_succ _), hmk⟩

theorem sepRun_cons_sep {c : Char} (h : isSep c = true) (rest : List Char) :
    sepRun (c :: rest) = sepRun rest + 1 := by
  simp [sepRun, h]

theorem sepRun_cons_not {c : Char} (h : isSep c = false) (rest : List Char) :
    sepRun (c :: rest) = 0 := by
  simp [sepRun, h]

theorem sepRun_take :
    ∀ (cs : List Char) (k : Nat), k ≤ sepRun cs →
      ∀ x ∈ cs.take k, isSep x = true := by
  intro cs
  induction cs with
  | nil => simp
  | cons c rest ih =>
    intro k hk x hx
    cases k with
    | zero => simp at hx
    | succ j =>
      by_cases hc : isSep c = true
      · rw [sepRun_cons_sep hc] at hk
        rw [List.take_succ_cons] at hx
        rcases List.mem_cons.mp hx with rfl | hx
        · exact hc
        · exact ih j (Nat.succ_le_succ_iff.mp hk) x hx
      · rw [sepRun_cons_not (by simpa using hc)] at hk
        exact absurd hk (by omega)

/-! ### Lemmas: locating the earliest marker -/

theorem findMarkerAux_at (mk : List Char → Option Nat)
    (hmk : ∀ c l, isSep c = true → mk (c :: l) = none) (hnil : mk [] = none) :
    ∀ (k : Nat) (cs : List Char) (n : Nat), k ≤ sepRun cs →
      mk (cs.drop k) = some n → findMarkerAux mk cs = some (k, n) := by
  intro k
  induction k with
  | zero =>
    intro cs n _ hm
    cases cs with
    | nil => exact absurd hm (by simp [hnil])
    | cons c rest =>
      rw [List.drop_zero] at hm
      simp [findMarkerAux, hm]
  | succ j ih =>
    intro cs n hk hm
    cases cs with
    | nil => simp [sepRun] at hk
    | cons c rest =>
      have hc : isSep c = true := by
        by_cases h : isSep c = true
        · exact h
        · rw [sepRun_cons_not (by simpa using h)] at hk
          exact absurd hk (by omega)
      rw [sepRun_cons_sep hc] at hk
      have hrest := ih rest n (Nat.succ_le_succ_iff.mp hk) (by simpa using hm)
      simp [findMarkerAux, hmk c rest hc, hrest]

theorem reMatchPos_zero (mk : List Char → Option Nat) (cs : List Char) (n : Nat)
    (h : reMatchPos mk cs = some (0, n)) : trySepsG mk cs = some n := by
  cases cs with
  | nil =>
    simp only [reMatchPos] at h
    cases ht : trySepsG mk [] with
    | some m => rw [ht] at h; simp at h; simp [h]
    | none => rw [ht] at h; simp at h
  | cons c rest =>
    simp only [reMatchPos] at h
    cases ht : trySepsG mk (c :: rest) with
    | some m => rw [ht] at h; simp at h; simp [h]
    | none =>
      rw [ht] at h
      by_cases hc : c = '\n'
      · simp [hc] at h
      · simp [hc] at h

/-! ### The correspondence between `re.match` and the earliest marker -/

theorem reMatch_spec (mk : List Char → Option Nat)
    (hmk : ∀ c l, isSep c = true → mk (c :: l) = none) (hnil : mk [] = none) :
    ∀ cs : List Char, '\n' ∉ cs →
      (reMatchPos mk cs = none ∧ findMarkerAux mk cs = none) ∨
      (∃ p m n pre seps, reMatchPos mk cs = some (p, n) ∧
        findMarkerAux mk cs = some (m, n) ∧ cs.take m = pre ++ seps ∧
        pre.length = p ∧ (∀ x ∈ seps, isSep x = true) ∧
        (∀ x, pre.getLast? = some x → isSep x = false)) := by
  intro cs
  induction cs with
  | nil =>
    intro _
    left
    constructor
    · simp [reMatchPos, trySepsG, sepRun, tryFrom, hnil]
    · simp [findMarkerAux]
  | cons c rest ih =>
    intro hnl
    have hnlr : '\n' ∉ rest := fun h => hnl (List.mem_cons_of_mem _ h)
    have hcne : ¬ c = '\n' := fun h => hnl (h ▸ List.mem_cons_self _ _)
    cases htry : trySepsG mk (c :: rest) with
    | some n =>
      right
      obtain ⟨k, hk, hmkk⟩ := tryFrom_some mk (c :: rest) (sepRun (c :: rest)) n htry
      have hfind := findMarkerAux_at mk hmk hnil k (c :: rest) n hk hmkk
      refine ⟨0, k, n, [], (c :: rest).take k, ?_, hfind, by simp, rfl,
        sepRun_take _ k hk, by simp⟩
      simp [reMatchPos, htry]
    | none =>
      have h0 : mk (c :: rest) = none := by
        simpa using (tryFrom_eq_none_iff mk (c :: rest) _).mp htry 0 (Nat.zero_le _)
      rcases ih hnlr with ⟨hr1, hr2⟩ | ⟨p, m, n, pre, seps, hr1, hr2, hdec, hlen, hsep, hlast⟩
      · left
        constructor
        · simp [reMatchPos, htry, hcne, hr1]
        · simp [findMarkerAux, h0, hr2]
      · right
        refine ⟨p + 1, m + 1, n, c :: pre, seps, ?_, ?_, ?_, by simp [hlen], hsep, ?_⟩
        · simp [reMatchPos, htry, hcne, hr1]
        · simp [findMarkerAux, h0, hr2]
        · simp [List.take_succ_cons, hdec]
        · intro x hx
          cases pre with
          | nil =>
            simp at hx
            subst hx
            have hp0 : p = 0 := by simpa using hlen.symm
            by_contra hcs
            have hcs' : isSep c = true := by
              revert hcs; cases isSep c <;> simp
            have h5 : trySepsG mk rest = some n :=
              reMatchPos_zero mk rest n (by rw [hr1, hp0])
            obtain ⟨k, hk, hmkk⟩ := tryFrom_some mk rest (sepRun rest) n h5
            have hall := (tryFrom_eq_none_iff mk (c :: rest) _).mp htry (k + 1)
              (by rw [sepRun_cons_sep hcs']; omega)
            rw [List.drop_succ_cons] at hall
            rw [hall] at hmkk
            exact Option.noConfusion hmkk
          | cons d pre' =>
            rw [List.getLast?_cons_cons] at hx
            exact hlast x hx

end MDM

namespace MDM

/-! ### Lemmas: the captured title equals the spec's trimmed title -/

theorem dropWhile_append_all {p : Char → Bool} :
    ∀ (l l2 : List Char), (∀ x ∈ l, p x = true) →
      (l ++ l2).dropWhile p = l2.dropWhile p := by
  intro l
  induction l with
  | nil => intro l2 _; rfl
  | cons c r ih =>
    intro l2 h
    have hc : p c = true := h c (List.mem_cons_self _ _)
    simp only [List.cons_append, List.dropWhile_cons, hc, if_true]
    exact ih l2 (fun x hx => h x (List.mem_cons_of_mem _ hx))

theorem dropWhile_head_false {p : Char → Bool} {l : List Char}
    (h : ∀ x, l.head? = some x → p x = false) : l.dropWhile p = l := by
  cases l with
  | nil => rfl
  | cons c r =>
    have hc : p c = false := h c rfl
    simp [List.dropWhile_cons, hc]

theorem dropTrailingSeps_decomp (pre seps : List Char)
    (hsep : ∀ x ∈ seps, isSep x = true)
    (hlast : ∀ x, pre.getLast? = some x → isSep x = false) :
    dropTrailingSeps (pre ++ seps) = pre := by
  unfold dropTrailingSeps
  rw [List.reverse_append]
  rw [dropWhile_append_all seps.reverse pre.reverse
    (fun x hx => hsep x (List.mem_reverse.mp hx))]
  rw [dropWhile_head_false (fun x hx => hlast x (by rwa [List.head?_reverse] at hx))]
  exact List.reverse_reverse pre

theorem famMatch_eq_specFam (mk : List Char → Option Nat)
    (hmk : ∀ c l, isSep c = true → mk (c :: l) = none) (hnil : mk [] = none)
    (cs : List Char) (hnl : '\n' ∉ cs) : famMatch mk cs = specFam mk cs := by
  rcases reMatch_spec mk hmk hnil cs hnl with
    ⟨h1, h2⟩ | ⟨p, m, n, pre, seps, h1, h2, hdec, hlen, hsep, hlast⟩
  · simp [famMatch, specFam, h1, h2]
  · simp only [famMatch, specFam, h1, h2, Option.map_some']
    have htitle : cs.take p = pre := by
      have hple : p ≤ m := by
        have h3 : pre.length ≤ (cs.take m).length := by
          rw [hdec]; simp
        have h4 : (cs.take m).length ≤ m := by
          simp [List.length_take]
        omega
      calc cs.take p = (cs.take m).take p := by
            rw [List.take_take, Nat.min_eq_left hple]
        _ = (pre ++ seps).take pre.length := by rw [hdec, hlen]
        _ = pre := List.take_left pre seps
    rw [hdec, dropTrailingSeps_decomp pre seps hsep hlast, htitle]

/-! ### The eight families never start with a separator character -/

theorem isSep_cases {c : Char} (h : isSep c = true) :
    c = ' ' ∨ c = '\t' ∨ c = '\n' ∨ c = '\r' ∨ c = '\x0b' ∨ c = '\x0c' ∨
      c = '-' ∨ c = '_' := by
  simp only [isSep, isWs, Bool.or_eq_true, beq_iff_eq] at h
  tauto

theorem lit1_sep_none {x : Char} (hx : x = '(' ∨ x = '[' ∨ x = 'd' ∨ x = 'c')
    {c : Char} (h : isSep c = true) (cs : List Char) : lit1 x (c :: cs) = none := by
  rcases isSep_cases h with rfl | rfl | rfl | rfl | rfl | rfl | rfl | rfl <;>
    rcases hx with rfl | rfl | rfl | rfl <;> rfl

theorem mk1_sep : ∀ (c : Char) (l : List Char), isSep c = true → mk1 (c :: l) = none := by
  intro c l h
  simp [mk1, mkNumD, lit1_sep_none (Or.inl rfl) h]

theorem mk2_sep : ∀ (c : Char) (l : List Char), isSep c = true → mk2 (c :: l) = none := by
  intro c l h
  simp [mk2, mkNumD, lit1_sep_none (Or.inr (Or.inl rfl)) h]

theorem mk3_sep : ∀ (c : Char) (l : List Char), isSep c = true → mk3 (c :: l) = none := by
  intro c l h
  simp [mk3, mkNumD, kwDis, litS, lit1_sep_none (Or.inr (Or.inr (Or.inl rfl))) h]

theorem mk4_sep : ∀ (c : Char) (l : List Char), isSep c = true → mk4 (c :: l) = none := by
  intro c l h
  simp [mk4, mkNumD, lit1_sep_none (Or.inl rfl) h]

theorem mk5_sep : ∀ (c : Char) (l : List Char), isSep c = true → mk5 (c :: l) = none := by
  intro c l h
  simp [mk5, mkNumD, lit1_sep_none (Or.inr (Or.inl rfl)) h]

theorem mk6_sep : ∀ (c : Char) (l : List Char), isSep c = true → mk6 (c :: l) = none := by
  intro c l h
  simp [mk6, mkNumD, kwCD, litS, lit1_sep_none (Or.inr (Or.inr (Or.inr rfl))) h]

theorem mk7_sep : ∀ (c : Char) (l : List Char), isSep c = true → mk7 (c :: l) = none := by
  intro c l h
  simp [mk7, mkLetD, lit1_sep_none (Or.inl rfl) h]

theorem mk8_sep : ∀ (c : Char) (l : List Char), isSep c = true → mk8 (c :: l) = none := by
  intro c l h
  simp [mk8, mkLetD, lit1_sep_none (Or.inr (Or.inl rfl)) h]

theorem mk1_nil : mk1 [] = none := rfl
theorem mk2_nil : mk2 [] = none := rfl
theorem mk3_nil : mk3 [] = none := rfl
theorem mk4_nil : mk4 [] = none := rfl
theorem mk5_nil : mk5 [] = none := rfl
theorem mk6_nil : mk6 [] = none := rfl
theorem mk7_nil : mk7 [] = none := rfl
theorem mk8_nil : mk8 [] = none := rfl

theorem splitextRootL_subset (cs : List Char) :
    ∀ x ∈ splitextRootL cs, x ∈ cs := by
  intro x hx
  cases h : lastDotIdx cs with
  | none =>
    simp only [splitextRootL, h] at hx
    exact hx
  | some L =>
    simp only [splitextRootL, h] at hx
    by_cases hc : (cs.takeWhile (fun c => c == '.')).length < L
    · rw [if_pos hc] at hx
      exact List.take_subset L cs hx
    · rw [if_neg hc] at hx
      exact hx

end MDM

namespace MDM

/-- C1 (amended): for every filename without a newline character, the
source's resolver agrees with the specification's reading of the eight
marker families widened so that the letter families also accept
`Disc L` — ordered first-match-wins, case-insensitive, extension
stripped first; title = text before the earliest marker occurrence
trimmed of trailing separators and whitespace; letter markers decode to
the 1-based alphabet position; absent when no (widened) family
matches.  As stated, the claim fails: the code parses `(Disc A)`
though spec families 7-8 list only `Side L` / `Disk L`, and a newline
before the marker makes the code return absent where the spec reading
matches (see `C1_letter_family_counterexample`). -/
theorem C1_resolve_follows_widened_spec (s : String) (h : '\n' ∉ s.data) :
    extract_game_info s = spec_resolve_widened s := by
  have hroot : '\n' ∉ splitextRootL s.data :=
    fun hm => h (splitextRootL_subset s.data _ hm)
  simp only [extract_game_info, spec_resolve_widened, extractL, spec_resolve_widened_L]
  rw [famMatch_eq_specFam mk1 mk1_sep mk1_nil _ hroot,
    famMatch_eq_specFam mk2 mk2_sep mk2_nil _ hroot,
    famMatch_eq_specFam mk3 mk3_sep mk3_nil _ hroot,
    famMatch_eq_specFam mk4 mk4_sep mk4_nil _ hroot,
    famMatch_eq_specFam mk5 mk5_sep mk5_nil _ hroot,
    famMatch_eq_specFam mk6 mk6_sep mk6_nil _ hroot,
    famMatch_eq_specFam mk7 mk7_sep mk7_nil _ hroot,
    famMatch_eq_specFam mk8 mk8_sep mk8_nil _ hroot]

end MDM

/-- C1 counterexample: the code parses `Game (Disc A).cue` via its
letter regex `(?:Side|Dis[ck])` although the documented families 7-8
accept only `Side L` / `Disk L`, so the spec reading returns absent
there; and on `A\nB (Disc 1).cue` the code returns absent (the regex
prefix `(.*?)` cannot cross the newline) although the `(Disc 1)` family
occurs, where the spec reading returns the parse. -/
theorem C1_letter_family_counterexample :
    MDM.extract_game_info "Game (Disc A).cue" = some ("Game", 1) ∧
    MDM.spec_resolve "Game (Disc A).cue" = none ∧
    MDM.extract_game_info "A\nB (Disc 1).cue" = none ∧
    MDM.spec_resolve "A\nB (Disc 1).cue" = some ("A\nB", 1) :=
  ⟨by decide, by decide, by decide, by decide⟩

/-- Witness for the amended C1 at a concrete filename. -/
theorem C1_resolve_follows_widened_spec_witness :
    ('\n' ∉ "Mega Game (Disc 2).cue".data) ∧
    MDM.extract_game_info "Mega Game (Disc 2).cue" =
      MDM.spec_resolve_widened "Mega Game (Disc 2).cue" ∧
    MDM.extract_game_info "Mega Game (Disc 2).cue" = some ("Mega Game", 2) :=
  ⟨by decide,
    MDM.C1_resolve_follows_widened_spec "Mega Game (Disc 2).cue" (by decide),
    by decide⟩

namespace MDM

/-! ### Lemmas: where a match's disc number comes from -/

theorem reMatchPos_exists (mk : List Char → Option Nat) :
    ∀ (cs : List Char) (p n : Nat), reMatchPos mk cs = some (p, n) →
      ∃ j, mk (cs.drop j) = some n := by
  intro cs
  induction cs with
  | nil =>
    intro p n h
    simp only [reMatchPos] at h
    cases ht : trySepsG mk [] with
    | some m =>
      rw [ht] at h
      simp at h
      obtain ⟨k, _, hk⟩ := tryFrom_some mk [] _ m ht
      exact ⟨k, by simpa [h.2] using hk⟩
    | none => rw [ht] at h; simp at h
  | cons c rest ih =>
    intro p n h
    simp only [reMatchPos] at h
    cases ht : trySepsG mk (c :: rest) with
    | some m =>
      rw [ht] at h
      simp at h
      obtain ⟨k, _, hk⟩ := tryFrom_some mk (c :: rest) _ m ht
      exact ⟨k, by simpa [h.2] using hk⟩
    | none =>
      rw [ht] at h
      by_cases hc : c = '\n'
      · simp [hc] at h
      · simp only [if_neg hc] at h
        cases hr : reMatchPos mk rest with
        | some q =>
          rw [hr] at h
          simp at h
          obtain ⟨j, hj⟩ := ih q.1 q.2 (by rw [hr])
          exact ⟨j + 1, by simpa [h.2] using hj⟩
        | none => rw [hr] at h; simp at h

theorem famMatch_marker (mk : List Char → Option Nat) (root : List Char)
    (t : List Char) (d : Nat) (h : famMatch mk root = some (t, d)) :
    ∃ j, mk (root.drop j) = some d := by
  unfold famMatch at h
  cases hr : reMatchPos mk root with
  | none => rw [hr] at h; simp at h
  | some q =>
    rw [hr] at h
    simp at h
    exact reMatchPos_exists mk root q.1 d (by rw [hr, ← h.2])

theorem letter1_pos : ∀ (l : List Char) (v : Nat) (r : List Char),
    letter1 l = some (v, r) → 1 ≤ v := by
  intro l v r h
  cases l with
  | nil => simp [letter1] at h
  | cons c cr =>
    simp only [letter1] at h
    by_cases hc : c.isAlpha
    · rw [if_pos hc] at h
      simp at h
      omega
    · rw [if_neg hc] at h
      simp at h

theorem mkLetD_pos (kw : List Char → Option (List Char)) (o c : Char)
    (cs : List Char) (n : Nat) (h : mkLetD kw o c cs = some n) : 1 ≤ n := by
  unfold mkLetD at h
  cases h1 : lit1 o cs with
  | none => simp [h1] at h
  | some r1 =>
    simp only [h1] at h
    cases h2 : kw r1 with
    | none => simp [h2] at h
    | some r2 =>
      simp only [h2] at h
      cases h3 : letter1 (wsDrop r2) with
      | none => simp [h3] at h
      | some vr =>
        obtain ⟨v, r3⟩ := vr
        simp only [h3] at h
        cases h4 : lit1 c r3 with
        | none => simp [h4] at h
        | some r4 =>
          simp only [h4, Option.some.injEq] at h
          have hv := letter1_pos (wsDrop r2) v r3 h3
          omega

theorem mk7_pos (cs : List Char) (n : Nat) (h : mk7 cs = some n) : 1 ≤ n :=
  mkLetD_pos kwSideOrDis '(' ')' cs n h

theorem mk8_pos (cs : List Char) (n : Nat) (h : mk8 cs = some n) : 1 ≤ n :=
  mkLetD_pos kwSideOrDis '[' ']' cs n h

theorem orE_eq_some {α : Type} (a b : Option α) (x : α) (h : orE a b = some x) :
    a = some x ∨ b = some x := by
  cases a with
  | some y => left; simpa [orE] using h
  | none => right; simpa [orE] using h

/-- Which family produced a successful parse. -/
theorem extractL_cases (fn : List Char) (t : List Char) (d : Nat)
    (h : extractL fn = some (t, d)) :
    famMatch mk1 (splitextRootL fn) = some (t, d) ∨
    famMatch mk2 (splitextRootL fn) = some (t, d) ∨
    famMatch mk3 (splitextRootL fn) = some (t, d) ∨
    famMatch mk4 (splitextRootL fn) = some (t, d) ∨
    famMatch mk5 (splitextRootL fn) = some (t, d) ∨
    famMatch mk6 (splitextRootL fn) = some (t, d) ∨
    famMatch mk7 (splitextRootL fn) = some (t, d) ∨
    famMatch mk8 (splitextRootL fn) = some (t, d) := by
  simp only [extractL] at h
  rcases orE_eq_some _ _ _ h with h1 | h
  · exact Or.inl h1
  rcases orE_eq_some _ _ _ h with h2 | h
  · exact Or.inr (Or.inl h2)
  rcases orE_eq_some _ _ _ h with h3 | h
  · exact Or.inr (Or.inr (Or.inl h3))
  rcases orE_eq_some _ _ _ h with h4 | h
  · exact Or.inr (Or.inr (Or.inr (Or.inl h4)))
  rcases orE_eq_some _ _ _ h with h5 | h
  · exact Or.inr (Or.inr (Or.inr (Or.inr (Or.inl h5))))
  rcases orE_eq_some _ _ _ h with h6 | h
  · exact Or.inr (Or.inr (Or.inr (Or.inr (Or.inr (Or.inl h6)))))
  rcases orE_eq_some _ _ _ h with h7 | h8
  · exact Or.inr (Or.inr (Or.inr (Or.inr (Or.inr (Or.inr (Or.inl h7))))))
  exact Or.inr (Or.inr (Or.inr (Or.inr (Or.inr (Or.inr (Or.inr h8))))))

end MDM

/-- C8 (amended): every non-absent parse has `disc_index ≥ 1` unless the
extension-stripped name carries a numeric disc marker denoting zero
(e.g. `Disc 0`), in which case the returned disc index is 0; parses
produced by the letter families always have `disc_index ≥ 1`. -/
theorem C8_disc_index_amended (s t : String) (d : Nat)
    (h : MDM.extract_game_info s = some (t, d)) :
    1 ≤ d ∨ (∃ j, MDM.mk1 ((MDM.splitextRootL s.data).drop j) = some 0 ∨
      MDM.mk2 ((MDM.splitextRootL s.data).drop j) = some 0 ∨
      MDM.mk3 ((MDM.splitextRootL s.data).drop j) = some 0 ∨
      MDM.mk4 ((MDM.splitextRootL s.data).drop j) = some 0 ∨
      MDM.mk5 ((MDM.splitextRootL s.data).drop j) = some 0 ∨
      MDM.mk6 ((MDM.splitextRootL s.data).drop j) = some 0) := by
  cases he : MDM.extractL s.data with
  | none => simp [MDM.extract_game_info, he] at h
  | some p =>
    obtain ⟨tl, dl⟩ := p
    have hd : dl = d := by
      simp [MDM.extract_game_info, he] at h
      exact h.2
    subst hd
    cases hdz : dl with
    | succ d0 => exact Or.inl (by omega)
    | zero =>
      subst hdz
      rcases MDM.extractL_cases s.data tl 0 he with h1 | h2 | h3 | h4 | h5 | h6 | h7 | h8
      · obtain ⟨j, hj⟩ := MDM.famMatch_marker _ _ _ _ h1
        exact Or.inr ⟨j, Or.inl hj⟩
      · obtain ⟨j, hj⟩ := MDM.famMatch_marker _ _ _ _ h2
        exact Or.inr ⟨j, Or.inr (Or.inl hj)⟩
      · obtain ⟨j, hj⟩ := MDM.famMatch_marker _ _ _ _ h3
        exact Or.inr ⟨j, Or.inr (Or.inr (Or.inl hj))⟩
      · obtain ⟨j, hj⟩ := MDM.famMatch_marker _ _ _ _ h4
        exact Or.inr ⟨j, Or.inr (Or.inr (Or.inr (Or.inl hj)))⟩
      · obtain ⟨j, hj⟩ := MDM.famMatch_marker _ _ _ _ h5
        exact Or.inr ⟨j, Or.inr (Or.inr (Or.inr (Or.inr (Or.inl hj))))⟩
      · obtain ⟨j, hj⟩ := MDM.famMatch_marker _ _ _ _ h6
        exact Or.inr ⟨j, Or.inr (Or.inr (Or.inr (Or.inr (Or.inr hj))))⟩
      · obtain ⟨j, hj⟩ := MDM.famMatch_marker _ _ _ _ h7
        exact absurd (MDM.mk7_pos _ _ hj) (by omega)
      · obtain ⟨j, hj⟩ := MDM.famMatch_marker _ _ _ _ h8
        exact absurd (MDM.mk8_pos _ _ hj) (by omega)

/-- C8 counterexample: the resolver returns a non-absent parse with
`disc_index = 0` on `Alpha (Disc 0).cue`, refuting the claim that every
non-absent parse has `disc_index ≥ 1`. -/
theorem C8_disc_zero_counterexample :
    MDM.extract_game_info "Alpha (Disc 0).cue" = some ("Alpha", 0) := by decide

/-- Witness for the amended C8 at a concrete filename. -/
theorem C8_disc_index_amended_witness :
    MDM.extract_game_info "Alpha (Disc 2).cue" = some ("Alpha", 2) ∧
    (1 ≤ 2 ∨ (∃ j, MDM.mk1 ((MDM.splitextRootL "Alpha (Disc 2).cue".data).drop j) = some 0 ∨
      MDM.mk2 ((MDM.splitextRootL "Alpha (Disc 2).cue".data).drop j) = some 0 ∨
      MDM.mk3 ((MDM.splitextRootL "Alpha (Disc 2).cue".data).drop j) = some 0 ∨
      MDM.mk4 ((MDM.splitextRootL "Alpha (Disc 2).cue".data).drop j) = some 0 ∨
      MDM.mk5 ((MDM.splitextRootL "Alpha (Disc 2).cue".data).drop j) = some 0 ∨
      MDM.mk6 ((MDM.splitextRootL "Alpha (Disc 2).cue".data).drop j) = some 0)) :=
  ⟨by decide, C8_disc_index_amended "Alpha (Disc 2).cue" "Alpha" 2 (by decide)⟩

namespace MDM

/-! ### Lemmas: the grouping dictionary -/

theorem membersOf_eq_valuesOf (files : List String) (t : String) :
    membersOf files t = valuesOf (files.filterMap entryOf) t := rfl

theorem alookup_addEntry {α : Type} (acc : List (String × List α)) (k : String)
    (v : α) (key : String) :
    alookup (addEntry acc k v) key =
      if k = key then
        match alookup acc key with
        | some vs => some (vs ++ [v])
        | none => some [v]
      else alookup acc key := by
  induction acc with
  | nil =>
    by_cases h : k = key <;> simp [addEntry, alookup, h]
  | cons e rest ih =>
    obtain ⟨k', vs⟩ := e
    by_cases h1 : k' = k
    · subst h1
      by_cases h2 : k' = key <;> simp [addEntry, alookup, h2]
    · by_cases h2 : k' = key
      · subst h2
        have hk : ¬ k = k' := fun e => h1 e.symm
        simp [addEntry, alookup, h1, hk]
      · simp [addEntry, alookup, h1, h2, ih]

theorem alookup_groupAux {α : Type} [DecidableEq α] :
    ∀ (pairs : List (String × α)) (acc : List (String × List α)) (key : String),
      alookup (pairs.foldl (fun a p => addEntry a p.1 p.2) acc) key =
        match alookup acc key with
        | some vs => some (vs ++ valuesOf pairs key)
        | none =>
          if valuesOf pairs key = [] then none else some (valuesOf pairs key) := by
  intro pairs
  induction pairs with
  | nil =>
    intro acc key
    cases h : alookup acc key <;> simp [valuesOf, h]
  | cons q rest ih =>
    intro acc key
    obtain ⟨k0, v0⟩ := q
    have hstep : (((k0, v0) :: rest).foldl (fun a p => addEntry a p.1 p.2) acc) =
        rest.foldl (fun a p => addEntry a p.1 p.2) (addEntry acc k0 v0) := by
      simp [List.foldl_cons]
    rw [hstep, ih (addEntry acc k0 v0) key, alookup_addEntry]
    have hval : valuesOf ((k0, v0) :: rest) key =
        if k0 = key then v0 :: valuesOf rest key else valuesOf rest key := by
      by_cases h : k0 = key <;> simp [valuesOf, List.filterMap_cons, h]
    rw [hval]
    by_cases h : k0 = key
    · rw [if_pos h, if_pos h]
      cases ha : alookup acc key with
      | some vs => simp
      | none => simp
    · rw [if_neg h, if_neg h]

theorem alookup_groupByKey {α : Type} [DecidableEq α] (pairs : List (String × α))
    (key : String) :
    alookup (groupByKey pairs) key =
      if valuesOf pairs key = [] then none else some (valuesOf pairs key) := by
  have h := alookup_groupAux pairs [] key
  simpa [groupByKey, alookup] using h

theorem addEntry_keys {α : Type} (acc : List (String × List α)) (k : String) (v : α) :
    (addEntry acc k v).map Prod.fst =
      if k ∈ acc.map Prod.fst then acc.map Prod.fst
      else acc.map Prod.fst ++ [k] := by
  induction acc with
  | nil => simp [addEntry]
  | cons e rest ih =>
    obtain ⟨k', vs⟩ := e
    by_cases h1 : k' = k
    · subst h1
      simp [addEntry]
    · have h1' : ¬ k = k' := fun e => h1 e.symm
      by_cases h2 : k ∈ rest.map Prod.fst <;>
        simp [addEntry, h1, h1', h2, ih]

theorem addEntry_nodupkeys {α : Type} (acc : List (String × List α)) (k : String)
    (v : α) (h : (acc.map Prod.fst).Nodup) :
    ((addEntry acc k v).map Prod.fst).Nodup := by
  rw [addEntry_keys]
  by_cases hk : k ∈ acc.map Prod.fst
  · simpa [hk] using h
  · simp only [hk, if_false]
    simp [List.nodup_append, h, hk]

theorem groupByKey_nodupkeys {α : Type} (pairs : List (String × α)) :
    ((groupByKey pairs).map Prod.fst).Nodup := by
  have haux : ∀ (l : List (String × α)) (acc : List (String × List α)),
      (acc.map Prod.fst).Nodup →
      ((l.foldl (fun a p => addEntry a p.1 p.2) acc).map Prod.fst).Nodup := by
    intro l
    induction l with
    | nil => intro acc h; simpa using h
    | cons q rest ih =>
      intro acc h
      rw [List.foldl_cons]
      exact ih _ (addEntry_nodupkeys acc q.1 q.2 h)
  exact haux pairs [] (by simp)

theorem alookup_mem {α : Type} :
    ∀ (l : List (String × α)) (k : String) (v : α),
      alookup l k = some v → (k, v) ∈ l := by
  intro l
  induction l with
  | nil => intro k v h; simp [alookup] at h
  | cons e rest ih =>
    intro k v h
    obtain ⟨k', v'⟩ := e
    by_cases hk : k' = k
    · subst hk
      simp [alookup] at h
      simp [h]
    · simp [alookup, hk] at h
      exact List.mem_cons_of_mem _ (ih k v h)

theorem mem_alookup {α : Type} :
    ∀ (l : List (String × α)), (l.map Prod.fst).Nodup →
      ∀ (k : String) (v : α), (k, v) ∈ l → alookup l k = some v := by
  intro l
  induction l with
  | nil => intro _ k v h; simp at h
  | cons e rest ih =>
    intro hnd k v h
    obtain ⟨k', v'⟩ := e
    rw [List.map_cons, List.nodup_cons] at hnd
    rcases List.mem_cons.mp h with he | hm
    · have h1 : k = k' := congrArg Prod.fst he
      have h2 : v = v' := congrArg Prod.snd he
      subst h1
      subst h2
      simp [alookup]
    · have hk : ¬ k' = k := by
        intro heq
        exact hnd.1 (heq ▸ List.mem_map.mpr ⟨(k, v), hm, rfl⟩)
      simp only [alookup, if_neg hk]
      exact ih hnd.2 k v hm

end MDM

namespace MDM

/-! ### Lemmas: characterizing `find_multidisc_games` -/

theorem sortDiscs_sorted (ms : List (Nat × String)) :
    (sortDiscs ms).Sorted (fun a b => a.1 ≤ b.1) :=
  List.sorted_insertionSort _ ms

theorem sortDiscs_perm (ms : List (Nat × String)) : List.Perm (sortDiscs ms) ms :=
  List.perm_insertionSort _ ms

theorem find_mem_iff (files : List String) (t : String) (ms : List (Nat × String)) :
    (t, ms) ∈ find_multidisc_games files ↔
      1 < (membersOf files t).length ∧ (extsOf (membersOf files t)).length = 1 ∧
        ms = sortDiscs (membersOf files t) := by
  unfold find_multidisc_games
  rw [List.mem_filterMap]
  constructor
  · rintro ⟨g, hg, hstep⟩
    obtain ⟨gk, gvs⟩ := g
    by_cases h1 : 1 < gvs.length
    · by_cases h2 : (extsOf gvs).length = 1
      · simp only [h1, h2, if_true, if_pos] at hstep
        have hk : gk = t := congrArg Prod.fst (Option.some.inj hstep)
        have hv : sortDiscs gvs = ms := congrArg Prod.snd (Option.some.inj hstep)
        rw [hk] at hg
        have hl := mem_alookup _ (groupByKey_nodupkeys _) _ _ hg
        rw [alookup_groupByKey] at hl
        by_cases hvv : valuesOf (files.filterMap entryOf) t = []
        · rw [if_pos hvv] at hl
          exact absurd hl (by simp)
        · rw [if_neg hvv] at hl
          have hgv : gvs = valuesOf (files.filterMap entryOf) t :=
            (Option.some.inj hl).symm
          rw [membersOf_eq_valuesOf, ← hgv]
          exact ⟨h1, h2, hv.symm⟩
      · simp [h1, h2] at hstep
    · simp [h1] at hstep
  · rintro ⟨h1, h2, rfl⟩
    refine ⟨(t, membersOf files t), ?_, ?_⟩
    · apply alookup_mem
      have hne : valuesOf (files.filterMap entryOf) t ≠ [] := by
        intro e
        rw [membersOf_eq_valuesOf, e] at h1
        simp at h1
      rw [alookup_groupByKey, if_neg hne, membersOf_eq_valuesOf]
    · simp only [h1, h2, if_true, if_pos]

/-! ### Lemmas: soundness of the per-file classification -/

theorem entryOf_sound (f : String) (pr : String × (Nat × String))
    (h : entryOf f = some pr) :
    pr.1 ≠ "" ∧ 1 ≤ pr.2.1 ∧ pr.2.2 = f ∧
      extract_game_info f = some (pr.1, pr.2.1) := by
  unfold entryOf at h
  cases he : extract_game_info f with
  | none => simp [he] at h
  | some q =>
    obtain ⟨name, d⟩ := q
    simp only [he] at h
    by_cases hc : name ≠ "" ∧ d ≠ 0
    · rw [if_pos hc] at h
      have := Option.some.inj h
      subst this
      exact ⟨hc.1, Nat.pos_of_ne_zero hc.2, rfl, rfl⟩
    · rw [if_neg hc] at h
      exact absurd h (by simp)

theorem mem_membersOf (files : List String) (t : String) (p : Nat × String)
    (h : p ∈ membersOf files t) : ∃ f ∈ files, entryOf f = some (t, p) := by
  rw [membersOf_eq_valuesOf] at h
  unfold valuesOf at h
  rw [List.mem_filterMap] at h
  obtain ⟨pr, hpr, hif⟩ := h
  by_cases hc : pr.1 = t
  · rw [if_pos hc] at hif
    have hp2 : pr.2 = p := Option.some.inj hif
    rw [List.mem_filterMap] at hpr
    obtain ⟨f, hf, hef⟩ := hpr
    refine ⟨f, hf, ?_⟩
    rw [hef]
    rw [show pr = (t, p) from Prod.ext hc hp2]
  · rw [if_neg hc] at hif
    exact absurd hif (by simp)

end MDM

namespace MDM

/-! ### Lemmas: playlist content and its lines -/

theorem splitNLL_ne_nil : ∀ cs : List Char, splitNLL cs ≠ [] := by
  intro cs
  cases cs with
  | nil => simp [splitNLL]
  | cons c r =>
    by_cases hc : c = '\n'
    · simp [splitNLL, hc]
    · simp only [splitNLL, if_neg hc]
      cases h : splitNLL r with
      | nil => simp
      | cons s ss => simp

theorem splitNLL_append (name : List Char) (rest : List Char)
    (h : '\n' ∉ name) :
    splitNLL (name ++ '\n' :: rest) = name :: splitNLL rest := by
  induction name with
  | nil => simp [splitNLL]
  | cons c nr ih =>
    have hc : ¬ c = '\n' := fun e => h (e ▸ List.mem_cons_self _ _)
    have h2 : '\n' ∉ nr := fun hm => h (List.mem_cons_of_mem _ hm)
    simp only [List.cons_append, splitNLL, if_neg hc, List.append_eq]
    rw [ih h2]

theorem linesOf_m3uContent (ms : List (Nat × String))
    (h : ∀ p ∈ ms, '\n' ∉ p.2.data) :
    linesOf (m3uContentL ms) = ms.map (fun p => p.2.data) := by
  unfold linesOf
  induction ms with
  | nil => simp [m3uContentL, splitNLL]
  | cons m mr ih =>
    have hm : '\n' ∉ m.2.data := h m (List.mem_cons_self _ _)
    have hmr : ∀ p ∈ mr, '\n' ∉ p.2.data :=
      fun p hp => h p (List.mem_cons_of_mem _ hp)
    have hcont : m3uContentL (m :: mr) = m.2.data ++ '\n' :: m3uContentL mr := by
      simp [m3uContentL, List.append_assoc]
    rw [hcont, splitNLL_append m.2.data _ hm]
    obtain ⟨s, ss, hss⟩ :=
      List.exists_cons_of_ne_nil (splitNLL_ne_nil (m3uContentL mr))
    rw [hss]
    rw [hss] at ih
    have hdl : (m.2.data :: s :: ss).dropLast = m.2.data :: (s :: ss).dropLast := rfl
    rw [hdl, ih hmr, List.map_cons]

end MDM

/-- C2: if two or more files in a listing parse to the same title but
their extensions are not all identical, the grouping emits no group at
all for that title, while every other title is still emitted exactly
when it satisfies the normal multi-disc conditions. -/
theorem C2_mixed_extensions_rejected (files : List String) (t : String)
    (_hlen : 1 < (MDM.membersOf files t).length)
    (hmix : (MDM.extsOf (MDM.membersOf files t)).length ≠ 1) :
    (∀ ms, (t, ms) ∉ MDM.find_multidisc_games files) ∧
    (∀ t2 ms2, t2 ≠ t →
      ((t2, ms2) ∈ MDM.find_multidisc_games files ↔
        1 < (MDM.membersOf files t2).length ∧
        (MDM.extsOf (MDM.membersOf files t2)).length = 1 ∧
        ms2 = MDM.sortDiscs (MDM.membersOf files t2))) := by
  constructor
  · intro ms hmem
    rw [MDM.find_mem_iff] at hmem
    exact hmix hmem.2.1
  · intro t2 ms2 _
    exact MDM.find_mem_iff files t2 ms2

/-- Witness for C2 on a concrete listing: `Foo` has a `.cue` and a
`.chd` disc and is rejected in full, while `Bar` is still emitted. -/
theorem C2_mixed_extensions_rejected_witness :
    ("Foo", [(1, "Foo (Disc 1).cue"), (2, "Foo (Disc 2).chd")]) ∉
      MDM.find_multidisc_games
        ["Foo (Disc 1).cue", "Foo (Disc 2).chd",
         "Bar (Disc 1).cue", "Bar (Disc 2).cue"] ∧
    ("Bar", [(1, "Bar (Disc 1).cue"), (2, "Bar (Disc 2).cue")]) ∈
      MDM.find_multidisc_games
        ["Foo (Disc 1).cue", "Foo (Disc 2).chd",
         "Bar (Disc 1).cue", "Bar (Disc 2).cue"] :=
  ⟨(C2_mixed_extensions_rejected _ "Foo" (by decide) (by decide)).1 _,
    ((C2_mixed_extensions_rejected _ "Foo" (by decide) (by decide)).2
      "Bar" _ (by decide)).mpr ⟨by decide, by decide, by decide⟩⟩

/-- C3: for every group emitted by `find_multidisc_games`, the playlist
written by `create_m3u_file` consists of exactly one newline-terminated
line per member (each line exactly the disc file's name), the lines are
in ascending `disc_index` order whatever the enumeration order of the
input listing, and the group's members are exactly the listing's
classified members for that title. -/
theorem C3_playlist_lines (files : List String) (folder t : String)
    (ms : List (Nat × String)) (fs : MDM.FS)
    (hmem : (t, ms) ∈ MDM.find_multidisc_games files)
    (hn : ∀ p ∈ ms, '\n' ∉ p.2.data)
    (hfresh : MDM.alookup fs (MDM.m3uPath folder t) = none) :
    MDM.create_m3u_file t ms folder fs =
      (true, (MDM.m3uPath folder t, MDM.m3uContentL ms) :: fs) ∧
    MDM.linesOf (MDM.m3uContentL ms) = ms.map (fun p => p.2.data) ∧
    (ms.map Prod.fst).Sorted (· ≤ ·) ∧
    List.Perm ms (MDM.membersOf files t) := by
  rw [MDM.find_mem_iff] at hmem
  obtain ⟨h1, h2, hsort⟩ := hmem
  refine ⟨?_, MDM.linesOf_m3uContent ms hn, ?_, ?_⟩
  · simp only [MDM.create_m3u_file, hfresh]
    simp
  · subst hsort
    have hs := MDM.sortDiscs_sorted (MDM.membersOf files t)
    exact List.Pairwise.map Prod.fst (fun a b hab => hab) hs
  · subst hsort
    exact MDM.sortDiscs_perm (MDM.membersOf files t)

/-- Witness for C3 at a concrete out-of-order listing. -/
theorem C3_playlist_lines_witness :
    MDM.create_m3u_file "Foo" [(1, "Foo (Disc 1).cue"), (2, "Foo (Disc 2).cue")]
        "roms" [] =
      (true, [("roms/Foo.m3u",
        MDM.m3uContentL [(1, "Foo (Disc 1).cue"), (2, "Foo (Disc 2).cue")])]) ∧
    MDM.linesOf
        (MDM.m3uContentL [(1, "Foo (Disc 1).cue"), (2, "Foo (Disc 2).cue")]) =
      [(1, "Foo (Disc 1).cue"), (2, "Foo (Disc 2).cue")].map (fun p => p.2.data) ∧
    ([(1, "Foo (Disc 1).cue"), (2, "Foo (Disc 2).cue")].map Prod.fst).Sorted
      (· ≤ ·) ∧
    List.Perm [(1, "Foo (Disc 1).cue"), (2, "Foo (Disc 2).cue")]
      (MDM.membersOf ["Foo (Disc 2).cue", "Foo (Disc 1).cue"] "Foo") :=
  C3_playlist_lines ["Foo (Disc 2).cue", "Foo (Disc 1).cue"] "roms" "Foo"
    [(1, "Foo (Disc 1).cue"), (2, "Foo (Disc 2).cue")] []
    (by decide) (by decide) (by decide)

/-- C10: every member of every emitted group has a non-empty title and
`disc_index ≥ 1` (the truthiness guard excludes empty titles and disc
number 0 from grouping), even though the resolver itself returns
non-absent parses with an empty title or disc number 0. -/
theorem C10_group_member_guard :
    (∀ (files : List String) (t : String) (ms : List (Nat × String)),
      (t, ms) ∈ MDM.find_multidisc_games files →
        t ≠ "" ∧ ∀ p ∈ ms, 1 ≤ p.1) ∧
    MDM.extract_game_info "(Disc 1).cue" = some ("", 1) ∧
    MDM.extract_game_info "Game (Disc 0).cue" = some ("Game", 0) := by
  refine ⟨?_, by decide, by decide⟩
  intro files t ms hmem
  rw [MDM.find_mem_iff] at hmem
  obtain ⟨h1, _, hsort⟩ := hmem
  have hmm : ∀ p ∈ MDM.membersOf files t, 1 ≤ p.1 ∧ t ≠ "" := by
    intro p hp
    obtain ⟨f, _, hef⟩ := MDM.mem_membersOf files t p hp
    have hs := MDM.entryOf_sound f (t, p) hef
    exact ⟨hs.2.1, hs.1⟩
  constructor
  · rcases hne : MDM.membersOf files t with _ | ⟨p0, rest⟩
    · rw [hne] at h1
      simp at h1
    · exact (hmm p0 (by rw [hne]; exact List.mem_cons_self _ _)).2
  · intro p hp
    subst hsort
    have hp2 : p ∈ MDM.membersOf files t :=
      (MDM.sortDiscs_perm (MDM.membersOf files t)).mem_iff.mp hp
    exact (hmm p hp2).1

/-- Witness for C10 at a concrete listing. -/
theorem C10_group_member_guard_witness :
    ("Game" : String) ≠ "" ∧
    (∀ p ∈ [(1, "Game (Disc 1).cue"), (2, "Game (Disc 2).cue")], 1 ≤ p.1) :=
  C10_group_member_guard.1 ["Game (Disc 1).cue", "Game (Disc 2).cue"] "Game"
    [(1, "Game (Disc 1).cue"), (2, "Game (Disc 2).cue")] (by decide)

namespace MDM

end MDM

/-- C4: when the target playlist already exists, `create_m3u_file`
returns `False`, performs no write, and the existing file's contents
are byte-for-byte unchanged. -/
theorem C4_existing_playlist_untouched (game : String)
    (discs : List (Nat × String)) (folder : String) (fs : MDM.FS)
    (c : List Char)
    (h : MDM.alookup fs (MDM.m3uPath folder game) = some c) :
    MDM.create_m3u_file game discs folder fs = (false, fs) ∧
    MDM.alookup (MDM.create_m3u_file game discs folder fs).2
      (MDM.m3uPath folder game) = some c := by
  have h1 : MDM.create_m3u_file game discs folder fs = (false, fs) := by
    simp only [MDM.create_m3u_file, h]
    simp
  exact ⟨h1, by rw [h1]; exact h⟩

/-- Witness for C4 at a concrete filesystem. -/
theorem C4_existing_playlist_untouched_witness :
    MDM.create_m3u_file "Foo" [(1, "Foo (Disc 1).cue")] "roms"
        [("roms/Foo.m3u", "old".data)] =
      (false, [("roms/Foo.m3u", "old".data)]) ∧
    MDM.alookup (MDM.create_m3u_file "Foo" [(1, "Foo (Disc 1).cue")] "roms"
        [("roms/Foo.m3u", "old".data)]).2 "roms/Foo.m3u" = some "old".data :=
  C4_existing_playlist_untouched "Foo" [(1, "Foo (Disc 1).cue")] "roms"
    [("roms/Foo.m3u", "old".data)] "old".data (by decide)

/-- C9 counterexample: an I/O failure after the first of two line
writes leaves a half-written playlist visible at the final path
(`create_m3u_file` writes directly to the final name, with no
temporary-file-then-rename publish). -/
theorem C9_partial_write_counterexample :
    MDM.create_m3u_file_partial "Foo"
        [(1, "Foo (Disc 1).cue"), (2, "Foo (Disc 2).cue")] "roms" [] 1 =
      (none, [("roms/Foo.m3u", "Foo (Disc 1).cue\n".data)]) ∧
    "Foo (Disc 1).cue\n".data ≠ [] ∧
    "Foo (Disc 1).cue\n".data ≠
      MDM.m3uContentL [(1, "Foo (Disc 1).cue"), (2, "Foo (Disc 2).cue")] :=
  ⟨by decide, by decide, by decide⟩

/-- C9 (amended): a write that fails after `k` of the group's lines
leaves the playlist file at its final path containing exactly the first
`k` lines. -/
theorem C9_partial_write_amended (game : String) (discs : List (Nat × String))
    (folder : String) (fs : MDM.FS) (k : Nat)
    (hfresh : MDM.alookup fs (MDM.m3uPath folder game) = none)
    (hk : k < discs.length) :
    MDM.create_m3u_file_partial game discs folder fs k =
      (none, (MDM.m3uPath folder game, MDM.m3uContentL (discs.take k)) :: fs) := by
  simp only [MDM.create_m3u_file_partial, hfresh, hk]
  simp [hk]

/-- Witness for the amended C9 at a concrete input. -/
theorem C9_partial_write_amended_witness :
    MDM.create_m3u_file_partial "Foo"
        [(1, "Foo (Disc 1).cue"), (2, "Foo (Disc 2).cue")] "roms" [] 1 =
      (none, [("roms/Foo.m3u",
        MDM.m3uContentL ([(1, "Foo (Disc 1).cue"), (2, "Foo (Disc 2).cue")].take 1))]) :=
  C9_partial_write_amended "Foo" [(1, "Foo (Disc 1).cue"), (2, "Foo (Disc 2).cue")]
    "roms" [] 1 (by decide) (by decide)

/-- C5: evaluation at the failing input: the combined
convert-then-playlist run over the two-task batch aborts before any
task is processed — `chdman_path = self.find_chdman()`
(src/rommate.py line 1013) raises `AttributeError` since `RomMateGUI`
defines no such method, the `except` at line 1218 reports
`show_completion(success=False)` with counts `(0, 0, 0)` — so the
reported `Succeeded + Skipped + Failed` is 0, not the batch size 2,
and no task receives a status at all. -/
theorem C5_combined_run_aborts :
    MDM.convert_and_create_m3u_run MDM.env0 false MDM.fs0 ["a.cue", "b.cue"] =
      (false, 0, 0, 0) ∧
    (0 + 0 + 0 : Nat) ≠ (["a.cue", "b.cue"] : List String).length :=
  ⟨by decide, by decide⟩

/-- C6: a conversion run's completion is reported as overall success
only if its failed count is 0: the standalone run (`convert_to_chd`)
computes `success = failed == 0` (and reports failure when nothing was
convertible at all), while the combined run always reports
`success=False`, because it aborts at the undefined
`self.find_chdman()` before converting anything — so no run with at
least one failed task is ever reported as success. -/
theorem C6_success_only_if_no_failures (c s f : Nat) (env : MDM.ConvEnv)
    (delete : Bool) (fs : MDM.FS) (srcs : List String) :
    (MDM.convert_to_chd_success c s f = true → f = 0) ∧
    (MDM.convert_and_create_m3u_run env delete fs srcs).1 = false := by
  constructor
  · intro h
    unfold MDM.convert_to_chd_success at h
    by_cases hz : c = 0 ∧ s = 0 ∧ f = 0
    · simp [hz] at h
    · rw [if_neg hz] at h
      simpa using h
  · rfl

/-- Witness for C6 at concrete counts and a concrete combined run. -/
theorem C6_success_only_if_no_failures_witness :
    MDM.convert_to_chd_success 2 1 0 = true ∧ (0 : Nat) = 0 ∧
    (MDM.convert_and_create_m3u_run MDM.env0 false MDM.fs0
      ["a.cue", "b.cue"]).1 = false :=
  ⟨by decide,
    (C6_success_only_if_no_failures 2 1 0 MDM.env0 false MDM.fs0
      ["a.cue", "b.cue"]).1 (by decide),
    (C6_success_only_if_no_failures 2 1 0 MDM.env0 false MDM.fs0
      ["a.cue", "b.cue"]).2⟩

/-- C7: a task whose destination archive already exists is skipped: its
filesystem and counter are left exactly as they were (destination not
modified, source and sidecar not deleted even when deletion was
requested, converter not consulted), its status is `Skipped`, and the
loop continues with the remaining tasks from the same state. -/
theorem C7_existing_destination_skipped (env : MDM.ConvEnv) (delete : Bool)
    (fs : MDM.FS) (c : Nat) (src : String) (rest : List String)
    (h : (MDM.alookup fs (MDM.chdPath src)).isSome = true) :
    MDM.convStep env delete fs c src = (fs, c, MDM.TaskStatus.skipped) ∧
    MDM.convertLoop env delete fs c (src :: rest) =
      { fs := (MDM.convertLoop env delete fs c rest).fs,
        converted := (MDM.convertLoop env delete fs c rest).converted,
        statuses := MDM.TaskStatus.skipped ::
          (MDM.convertLoop env delete fs c rest).statuses } := by
  have hstep : MDM.convStep env delete fs c src = (fs, c, MDM.TaskStatus.skipped) := by
    simp [MDM.convStep, h]
  exact ⟨hstep, by simp [MDM.convertLoop, hstep]⟩

/-- Witness for C7: the destination `a.chd` exists, deletion was
requested, and the task is skipped with nothing touched. -/
theorem C7_existing_destination_skipped_witness :
    MDM.convStep MDM.env0 true [("a.chd", "Z".data), ("a.cue", "CUEA".data)] 0
        "a.cue" =
      ([("a.chd", "Z".data), ("a.cue", "CUEA".data)], 0, MDM.TaskStatus.skipped) ∧
    MDM.convertLoop MDM.env0 true [("a.chd", "Z".data), ("a.cue", "CUEA".data)] 0
        ["a.cue"] =
      { fs := (MDM.convertLoop MDM.env0 true
          [("a.chd", "Z".data), ("a.cue", "CUEA".data)] 0 []).fs,
        converted := (MDM.convertLoop MDM.env0 true
          [("a.chd", "Z".data), ("a.cue", "CUEA".data)] 0 []).converted,
        statuses := MDM.TaskStatus.skipped ::
          (MDM.convertLoop MDM.env0 true
            [("a.chd", "Z".data), ("a.cue", "CUEA".data)] 0 []).statuses } :=
  C7_existing_destination_skipped MDM.env0 true
    [("a.chd", "Z".data), ("a.cue", "CUEA".data)] 0 "a.cue" [] (by decide)

section Evaluations

example : MDM.extract_game_info "Mega Game (Disc 2).cue" = some ("Mega Game", 2) := by decide
example : MDM.extract_game_info "Mega Game [Side B].cdi" = some ("Mega Game", 2) := by decide
example : MDM.extract_game_info "Mega Game.cue" = none := by decide
example : MDM.extract_game_info "Game Name CD1.bin" = some ("Game Name", 1) := by decide
example : MDM.extract_game_info "Game - Disc 2.cue" = some ("Game", 2) := by decide
example : MDM.extract_game_info "Game Disc 1 (Disc 2).cue" = some ("Game Disc 1", 2) := by decide
example : MDM.extract_game_info "Game (Side a).cue" = some ("Game", 1) := by decide
example : MDM.extract_game_info "Game (CD  007).cue" = some ("Game", 7) := by decide
example : MDM.extract_game_info "Game (Side AB).cue" = none := by decide
example : MDM.spec_resolve "Mega Game (Disc 2).cue" = some ("Mega Game", 2) := by decide
example :
    MDM.find_multidisc_games ["Foo (Disc 2).cue", "Foo (Disc 1).cue", "Bar.cue"] =
      [("Foo", [(1, "Foo (Disc 1).cue"), (2, "Foo (Disc 2).cue")])] := by decide
example :
    MDM.find_multidisc_games ["Foo (Disc 1).cue", "Foo (Disc 2).chd"] = [] := by decide
example :
    MDM.m3uContentL [(1, "Foo (Disc 1).cue"), (2, "Foo (Disc 2).cue")] =
      "Foo (Disc 1).cue\nFoo (Disc 2).cue\n".data := by decide

end Evaluations
